import Mathlib

set_option maxHeartbeats 1000000

namespace PrependLicenseNotice

/-! Shallow embedding of `scripts/prepend-license-notice.py`.

A file's content is modelled as a `String` (its characters, in order).
Python's `f.readlines()` is modelled by `readlines`, which splits after
every newline character, keeping the newline at the end of each produced
line and keeping a final newline-less segment only when it is nonempty.
`f.writelines(...)` concatenates, modelled by `writelines`.  The `in`
substring test, `str.strip`, `str.lower`, `str.startswith` and
`Path.suffix` are modelled character by character below. -/

/-- The fixed notice text (the Python constant `NOTICE`). -/
def NOTICE : String :=
  "This file is licensed under the GNU GPL v3.\nCopyright (C) 2026 Guanyuming He.\n"

/-- The hard-coded marker substring (the Python constant `NOTICE_MARKER`). -/
def NOTICE_MARKER : String := "This file is licensed under the GNU GPL v3"

/-- The C-like extension set `C_EXTS`. -/
def C_EXTS : List String := [".c", ".cpp", ".h", ".hpp"]

/-- The script-like extension set `SCRIPT_EXTS`. -/
def SCRIPT_EXTS : List String := [".sh", ".bash", ".py"]

/-- The TeX extension set `TEX_EXTS`. -/
def TEX_EXTS : List String := [".tex"]

/-- Helper for `readlines`: walks the character list, accumulating the
current (reversed) line in `acc`; a newline closes the line and the
newline itself is kept, as Python `readlines` does. -/
def lines_aux : List Char → List Char → List String
  | [], acc => if acc.isEmpty then [] else [String.mk acc.reverse]
  | c :: cs, acc =>
    if c = '\n' then String.mk (acc.reverse ++ ['\n']) :: lines_aux cs []
    else lines_aux cs (c :: acc)

/-- Python `f.readlines()` on a file whose content is `s`. -/
def readlines (s : String) : List String := lines_aux s.data []

/-- Python `f.writelines(ls)`: plain concatenation of the given strings. -/
def writelines (ls : List String) : String := String.mk (ls.map String.data).flatten

/-- Helper for `splitlines`: like `lines_aux` but the newline terminator
is dropped from the produced line, as Python `str.splitlines` does.
(Only the newline character is relevant for the constant `NOTICE`.) -/
def splitlines_aux : List Char → List Char → List String
  | [], acc => if acc.isEmpty then [] else [String.mk acc.reverse]
  | c :: cs, acc =>
    if c = '\n' then String.mk acc.reverse :: splitlines_aux cs []
    else splitlines_aux cs (c :: acc)

/-- Python `str.splitlines` (newline-only, which suffices for `NOTICE`). -/
def splitlines (s : String) : List String := splitlines_aux s.data []

/-- Helper for the Python substring test `sub in l`. -/
def list_in (needle : List Char) : List Char → Bool
  | [] => needle.isEmpty
  | c :: cs => needle.isPrefixOf (c :: cs) || list_in needle cs

/-- Python's substring test `sub in l` on strings. -/
def substr_in (sub l : String) : Bool := list_in sub.data l.data

/-- The test `NOTICE_MARKER in line` used by the detector and the remover
(and, spelled out literally, by `has_file_notice`). -/
def contains_marker (l : String) : Bool := substr_in NOTICE_MARKER l

/-- Python `line.strip() == ""`: every character is whitespace. -/
def is_blank (l : String) : Bool := l.data.all (fun c => c.isWhitespace)

/-- Python `line.startswith "#!"` (two concrete characters). -/
def starts_shebang (l : String) : Bool := List.isPrefixOf ['#', '!'] l.data

/-- Python `str.lower` (ASCII letters, which covers the extension sets). -/
def str_lower (s : String) : String := String.mk (s.data.map Char.toLower)

/-- Python `str.strip`: drop whitespace from both ends. -/
def py_strip (s : String) : String :=
  String.mk ((s.data.dropWhile Char.isWhitespace).reverse.dropWhile Char.isWhitespace).reverse

/-- Python `Path(name).suffix`: the extension (with its dot) of the final
path component; empty when the final component has no dot, starts with
its only dot, or ends with a dot. -/
def path_suffix (name : String) : String :=
  let rbase := name.data.reverse.takeWhile (fun c => c ≠ '/')
  let r := rbase.takeWhile (fun c => c ≠ '.')
  if r.length + 1 < rbase.length ∧ 0 < r.length then String.mk ('.' :: r.reverse) else ""

/-- The scan loop of `has_file_notice`: `for ln in range(end)` reading one
line per step; reading past the end of the file yields `""`.  The first
argument of the inner function is the current line number, the second the
number of loop iterations left. -/
def notice_scan (L : List String) : Nat → Nat → Int
  | _, 0 => -1
  | ln, fuel + 1 =>
    if contains_marker (L.getD ln "") then (ln : Int) else notice_scan L (ln + 1) fuel

/-- `has_file_notice(file_path, end)`: the line number of the first line
within the first `e` lines that contains the marker, or `-1`. -/
def has_file_notice (s : String) (e : Nat) : Int := notice_scan (readlines s) 0 e

/-- The notice block built by `insert_notice`: each line of `NOTICE`
prefixed with `pfx` and newline-terminated, then one blank line. -/
def notice_block (pfx : String) : List String :=
  (splitlines NOTICE).map (fun line => pfx ++ line ++ "\n") ++ ["\n"]

/-- The line-level body of `insert_notice`:
`lines[:insert_index] + notice_lines + ['\n'] + lines[insert_index:]`
with `insert_index = max(0, min(insert_line, len(lines)))`. -/
def insert_notice_lines (lines : List String) (pfx : String) (insert_line : Int) : List String :=
  let insert_index := (max 0 (min insert_line (lines.length : Int))).toNat
  lines.take insert_index ++ notice_block pfx ++ lines.drop insert_index

/-- `insert_notice(file_path, prefix, insert_line)`: read the lines,
splice the block in, write the result back. -/
def insert_notice (s : String) (pfx : String) (insert_line : Int) : String :=
  writelines (insert_notice_lines (readlines s) pfx insert_line)

/-- The scanning loop of `remove_existing_notice`, starting in state
`skipping`: state `0` scans (copying lines) until a line contains the
marker, which switches to state `1` and drops that line; state `1` drops
lines until the first blank line, which is also dropped and switches to
state `2`; state `2` copies every remaining line. -/
def remove_scan : List String → Nat → List String
  | [], _ => []
  | l :: ls, skipping =>
    if skipping = 0 then
      if contains_marker l then remove_scan ls 1 else l :: remove_scan ls 0
    else if skipping = 1 then
      if is_blank l then remove_scan ls 2 else remove_scan ls 1
    else l :: remove_scan ls skipping

/-- The line-level body of `remove_existing_notice`: `out = lines[:start]`
then the scanning loop over `lines[start:]`. -/
def remove_notice_lines (lines : List String) (start : Nat) : List String :=
  lines.take start ++ remove_scan (lines.drop start) 0

/-- `remove_existing_notice(path, start)`: read, remove, rewrite. -/
def remove_existing_notice (s : String) (start : Nat) : String :=
  writelines (remove_notice_lines (readlines s) start)

/-- The extension dispatch of `decide_notice`: the comment prefix and the
insertion line, from the (case-folded) suffix and the file's first line
(the shebang check, performed only for script-like extensions and
irrelevant to the result otherwise). -/
def classify (suffix : String) (first_line : String) : String × Int :=
  if suffix ∈ C_EXTS then ("// ", 0)
  else if suffix ∈ SCRIPT_EXTS then ("# ", if starts_shebang first_line then 1 else 0)
  else if suffix ∈ TEX_EXTS then ("% ", 0)
  else ("// ", 0)

/-- The first half of `decide_notice`: detect with the default window of
5 lines and, when a notice was found, remove it at the detected line. -/
def remove_phase (s : String) : String :=
  let old := has_file_notice s 5
  if old = -1 then s else remove_existing_notice s old.toNat

/-- `decide_notice(file_path)` for a file named `name` with content `s`:
conditional removal, then classification by `file_path.suffix.lower()`
(reading the first line of the file as it stands after removal), then
insertion. -/
def decide_notice (name s : String) : String :=
  let s1 := remove_phase s
  let pj := classify (str_lower (path_suffix name)) ((readlines s1).headD "")
  insert_notice s1 pj.1 pj.2

/-- `is_git_work_tree()`: `.ok out` models a successful `git rev-parse
--is-inside-work-tree` with standard output `out`; `.error` models
`CalledProcessError`, which the function catches, returning `False`. -/
def is_git_work_tree (q : Except Unit String) : Bool :=
  match q with
  | .error _ => false
  | .ok out => py_strip out == "true"

/-- `git_work_tree_clean()`: a caught query failure or any nonempty
(stripped) `git status --porcelain` output yields `False`. -/
def git_work_tree_clean (q : Except Unit String) : Bool :=
  match q with
  | .error _ => false
  | .ok out => py_strip out == ""

/-- The control flow of `main()` after argument collection.  `wt`,
`root` and `status` are the results of the three git queries; `process`
stands for the path-processing loop (it is the only part of `main` that
touches files), acting on an abstract file-system state `fs`.  A failed
`git rev-parse --show-toplevel` makes `git_root` exit with code 1. -/
def main_model {α : Type} (wt root status : Except Unit String) (args : List String)
    (process : α → α) (fs : α) : Int × α :=
  if "--help" ∈ args ∨ args = [] then (0, fs)
  else if !(is_git_work_tree wt) then (-1, fs)
  else
    match root with
    | .error _ => (1, fs)
    | .ok _ =>
      if !(git_work_tree_clean status) then (-1, fs)
      else (0, process fs)

/-! ### Line structure: what `readlines` produces and `writelines` undoes -/

/-- A well-formed line: some newline-free text followed by the
terminating newline. -/
def WFLine (l : String) : Prop := ∃ m, l.data = m ++ ['\n'] ∧ '\n' ∉ m

/-- A possible final line of a `readlines` result: well-formed, or
nonempty and newline-free (a file that does not end with a newline). -/
def LastLine (l : String) : Prop := WFLine l ∨ (l.data ≠ [] ∧ '\n' ∉ l.data)

/-- The shape every `readlines` result has: all lines but the last are
well-formed, the last is a possible final line. -/
def LinesOk : List String → Prop
  | [] => True
  | [l] => LastLine l
  | l :: ls => WFLine l ∧ LinesOk ls

theorem linesok_cons {l : String} {ls : List String} (hl : WFLine l) (hls : LinesOk ls) :
    LinesOk (l :: ls) := by
  cases ls with
  | nil => exact Or.inl hl
  | cons l2 ls2 => exact ⟨hl, hls⟩

theorem linesok_append {A B : List String} (hA : ∀ l ∈ A, WFLine l) (hB : LinesOk B) :
    LinesOk (A ++ B) := by
  induction A with
  | nil => simpa using hB
  | cons a A ih =>
    exact linesok_cons (hA a (by simp)) (ih fun l hl => hA l (by simp [hl]))

theorem linesok_of_wf {ls : List String} (h : ∀ l ∈ ls, WFLine l) : LinesOk ls := by
  have := linesok_append h (B := []) trivial
  simpa using this

theorem data_mk (xs : List Char) : (String.mk xs).data = xs := rfl

theorem mk_data (s : String) : String.mk s.data = s := rfl

theorem flatten_lines_aux (cs : List Char) :
    ∀ acc : List Char, ((lines_aux cs acc).map String.data).flatten = acc.reverse ++ cs := by
  induction cs with
  | nil =>
    intro acc
    by_cases h : acc.isEmpty
    · have : acc = [] := by simpa using h
      simp [lines_aux, h, this]
    · simp [lines_aux, h, data_mk]
  | cons c cs ih =>
    intro acc
    by_cases hc : c = '\n'
    · simp [lines_aux, hc, data_mk, ih, List.append_assoc]
    · simpa [lines_aux, hc, List.append_assoc] using ih (c :: acc)

/-- `writelines` is a left inverse of `readlines`. -/
theorem writelines_readlines (s : String) : writelines (readlines s) = s := by
  have h := flatten_lines_aux s.data []
  simp only [List.reverse_nil, List.nil_append] at h
  show String.mk ((lines_aux s.data []).map String.data).flatten = s
  rw [h]

theorem lines_aux_wf_line (m : List Char) :
    ∀ (acc rest : List Char), '\n' ∉ m →
      lines_aux (m ++ '\n' :: rest) acc =
        String.mk (acc.reverse ++ m ++ ['\n']) :: lines_aux rest [] := by
  induction m with
  | nil => intro acc rest _; simp [lines_aux]
  | cons c m ih =>
    intro acc rest hm
    have hc : ¬ c = '\n' := fun h => hm (by simp [h])
    have hm2 : '\n' ∉ m := fun h => hm (by simp [h])
    have := ih (c :: acc) rest hm2
    simp only [List.cons_append, lines_aux, if_neg hc]
    exact this.trans (by simp [List.append_assoc])

theorem lines_aux_no_newline (m : List Char) :
    ∀ acc : List Char, '\n' ∉ m →
      lines_aux m acc =
        if (acc.reverse ++ m).isEmpty then [] else [String.mk (acc.reverse ++ m)] := by
  induction m with
  | nil => intro acc _; simp [lines_aux]
  | cons c m ih =>
    intro acc hm
    have hc : ¬ c = '\n' := fun h => hm (by simp [h])
    have hm2 : '\n' ∉ m := fun h => hm (by simp [h])
    have := ih (c :: acc) hm2
    simp only [lines_aux, if_neg hc]
    exact this.trans (by simp [List.append_assoc])

/-- `readlines` is a left inverse of `writelines` on line lists of the
shape `readlines` itself produces. -/
theorem readlines_writelines : ∀ ls : List String, LinesOk ls → readlines (writelines ls) = ls := by
  intro ls
  induction ls with
  | nil => intro _; rfl
  | cons l ls ih =>
    intro hok
    have hdata : (writelines (l :: ls)).data = l.data ++ (writelines ls).data := by
      simp [writelines, data_mk]
    cases ls with
    | nil =>
      have hlast : LastLine l := hok
      cases hlast with
      | inl hwf =>
        obtain ⟨m, hm, hnm⟩ := hwf
        show lines_aux (writelines [l]).data [] = [l]
        rw [hdata]
        simp only [writelines, List.map_nil, List.flatten_nil, data_mk, List.append_nil]
        rw [hm, lines_aux_wf_line m [] [] hnm]
        simp [lines_aux, ← hm, mk_data]
      | inr hne =>
        show lines_aux (writelines [l]).data [] = [l]
        rw [hdata]
        simp only [writelines, List.map_nil, List.flatten_nil, data_mk, List.append_nil]
        rw [lines_aux_no_newline l.data [] hne.2]
        have : ¬ l.data.isEmpty := by simpa using hne.1
        simp [this, mk_data]
    | cons l2 ls2 =>
      obtain ⟨hwf, hok2⟩ := hok
      obtain ⟨m, hm, hnm⟩ := hwf
      show lines_aux (writelines (l :: l2 :: ls2)).data [] = l :: l2 :: ls2
      rw [hdata, hm, List.append_assoc, List.singleton_append,
        lines_aux_wf_line m [] ((writelines (l2 :: ls2)).data) hnm]
      have := ih hok2
      simp only [readlines] at this
      rw [this]
      simp [← hm, mk_data]

theorem linesok_lines_aux (cs : List Char) :
    ∀ acc : List Char, '\n' ∉ acc → LinesOk (lines_aux cs acc) := by
  induction cs with
  | nil =>
    intro acc hacc
    by_cases h : acc.isEmpty
    · simp [lines_aux, h, LinesOk]
    · refine ?_
      simp only [lines_aux, if_neg h]
      refine Or.inr ⟨?_, by simpa using hacc⟩
      simp only [data_mk]
      intro hrev
      exact h (by simp [List.reverse_eq_nil_iff.mp hrev, List.isEmpty_nil])
  | cons c cs ih =>
    intro acc hacc
    by_cases hc : c = '\n'
    · simp only [lines_aux, if_pos hc]
      refine linesok_cons ⟨acc.reverse, by simp [data_mk], by simpa using hacc⟩ ?_
      exact ih [] (by simp)
    · simp only [lines_aux, if_neg hc]
      refine ih (c :: acc) ?_
      intro h
      rcases List.mem_cons.mp h with h | h
      · exact hc h.symm
      · exact hacc h

/-- Every `readlines` result is of the expected shape. -/
theorem readlines_ok (s : String) : LinesOk (readlines s) :=
  linesok_lines_aux s.data [] (by simp)

theorem wf_lines_aux (cs : List Char) :
    ∀ acc : List Char, cs.getLast? = some '\n' → '\n' ∉ acc →
      ∀ l ∈ lines_aux cs acc, WFLine l := by
  induction cs with
  | nil => intro acc h _; simp at h
  | cons c cs ih =>
    intro acc hlast hacc
    cases cs with
    | nil =>
      have hc : c = '\n' := by simpa using hlast
      subst hc
      simp only [lines_aux, if_pos rfl]
      intro l hl
      rcases List.mem_cons.mp hl with hl | hl
      · subst hl
        exact ⟨acc.reverse, by simp [data_mk], by simpa using hacc⟩
      · simp [lines_aux] at hl
    | cons c2 cs2 =>
      have hlast2 : (c2 :: cs2).getLast? = some '\n' := by
        rw [← hlast]; simp [List.getLast?_cons_cons]
      by_cases hc : c = '\n'
      · simp only [lines_aux, if_pos hc]
        intro l hl
        rcases List.mem_cons.mp hl with hl | hl
        · subst hl
          exact ⟨acc.reverse, by simp [data_mk, hc], by simpa using hacc⟩
        · exact ih [] hlast2 (by simp) l hl
      · simp only [lines_aux, if_neg hc]
        refine ih (c :: acc) hlast2 ?_
        intro h
        rcases List.mem_cons.mp h with h | h
        · exact hc h.symm
        · exact hacc h

/-- A file that is empty or ends with a newline splits into well-formed
lines only. -/
theorem readlines_wf (s : String) (h : s.data = [] ∨ s.data.getLast? = some '\n') :
    ∀ l ∈ readlines s, WFLine l := by
  rcases h with h | h
  · intro l hl
    simp [readlines, h, lines_aux] at hl
  · exact wf_lines_aux s.data [] h (by simp)

/-! ### Facts about the marker, blank lines and the notice block -/

/-- The first line of the notice block, for comment prefix `p`. -/
def mline (p : String) : String := p ++ "This file is licensed under the GNU GPL v3." ++ "\n"

/-- The second line of the notice block, for comment prefix `p`. -/
def cline (p : String) : String := p ++ "Copyright (C) 2026 Guanyuming He." ++ "\n"

theorem splitlines_NOTICE :
    splitlines NOTICE =
      ["This file is licensed under the GNU GPL v3.", "Copyright (C) 2026 Guanyuming He."] := by
  decide

theorem notice_block_eq (p : String) : notice_block p = [mline p, cline p, "\n"] := by
  simp [notice_block, splitlines_NOTICE, mline, cline]

theorem list_in_prepend (n h : List Char) (hin : list_in n h = true) :
    ∀ pre : List Char, list_in n (pre ++ h) = true := by
  intro pre
  induction pre with
  | nil => simpa using hin
  | cons c pre ih => simp [list_in, ih]

theorem marker_in_mline (p : String) : contains_marker (mline p) = true := by
  have hbase :
      list_in NOTICE_MARKER.data ("This file is licensed under the GNU GPL v3.\n").data = true := by
    decide
  have : (mline p).data =
      p.data ++ ("This file is licensed under the GNU GPL v3.\n").data := by
    simp [mline]
  simp only [contains_marker, substr_in, this]
  exact list_in_prepend _ _ hbase p.data

theorem cline_not_blank (p : String) : is_blank (cline p) = false := by
  have : (cline p).data = p.data ++ ("Copyright (C) 2026 Guanyuming He.\n").data := by
    simp [cline]
  simp only [is_blank, this, List.all_append]
  have : ("Copyright (C) 2026 Guanyuming He.\n").data.all (fun c => c.isWhitespace) = false := by
    decide
  simp [this]

theorem blank_nl : is_blank "\n" = true := by decide

theorem marker_not_in_nl : contains_marker "\n" = false := by decide

theorem marker_not_in_empty : contains_marker "" = false := by decide

theorem wf_concat_nl (p s : String) (hp : '\n' ∉ p.data) (hs : '\n' ∉ s.data) :
    WFLine (p ++ s ++ "\n") := by
  refine ⟨p.data ++ s.data, by simp, ?_⟩
  simp [hp, hs]

theorem wf_nl : WFLine "\n" := ⟨[], rfl, by simp⟩

theorem wf_mline (p : String) (hp : '\n' ∉ p.data) : WFLine (mline p) :=
  wf_concat_nl p "This file is licensed under the GNU GPL v3." hp (by decide)

theorem wf_cline (p : String) (hp : '\n' ∉ p.data) : WFLine (cline p) :=
  wf_concat_nl p "Copyright (C) 2026 Guanyuming He." hp (by decide)

theorem wf_notice_block (p : String) (hp : '\n' ∉ p.data) :
    ∀ l ∈ notice_block p, WFLine l := by
  intro l hl
  rw [notice_block_eq] at hl
  rcases List.mem_cons.mp hl with h | hl
  · exact h ▸ wf_mline p hp
  rcases List.mem_cons.mp hl with h | hl
  · exact h ▸ wf_cline p hp
  rcases List.mem_cons.mp hl with h | hl
  · exact h ▸ wf_nl
  · simp at hl

/-! ### Behaviour of the removal scan -/

theorem remove_scan_state2 (ts : List String) : remove_scan ts 2 = ts := by
  induction ts with
  | nil => rfl
  | cons l ls ih => simp [remove_scan, ih]

theorem remove_scan_state1_no_blank (ts : List String)
    (h : ∀ x ∈ ts, is_blank x = false) : remove_scan ts 1 = [] := by
  induction ts with
  | nil => rfl
  | cons l ls ih =>
    have hl : is_blank l = false := h l (by simp)
    simp [remove_scan, hl, ih fun x hx => h x (by simp [hx])]

theorem remove_scan_state1 (pre : List String) (bl : String) (post : List String)
    (hpre : ∀ x ∈ pre, is_blank x = false) (hbl : is_blank bl = true) :
    remove_scan (pre ++ bl :: post) 1 = post := by
  induction pre with
  | nil => simp [remove_scan, hbl, remove_scan_state2]
  | cons l pre ih =>
    have hl : is_blank l = false := hpre l (by simp)
    simp only [List.cons_append, remove_scan, hl]
    simpa using ih fun x hx => hpre x (by simp [hx])

theorem remove_scan_state0 (pre : List String) (ml : String) (post : List String)
    (hpre : ∀ x ∈ pre, contains_marker x = false) (hml : contains_marker ml = true) :
    remove_scan (pre ++ ml :: post) 0 = pre ++ remove_scan post 1 := by
  induction pre with
  | nil => simp [remove_scan, hml]
  | cons l pre ih =>
    have hl : contains_marker l = false := hpre l (by simp)
    have ih2 := ih fun x hx => hpre x (by simp [hx])
    simp [List.cons_append, remove_scan, hl, ih2]

theorem remove_scan_no_marker (ts : List String)
    (h : ∀ x ∈ ts, contains_marker x = false) : remove_scan ts 0 = ts := by
  induction ts with
  | nil => rfl
  | cons l ls ih =>
    have hl : contains_marker l = false := h l (by simp)
    simp [remove_scan, hl, ih fun x hx => h x (by simp [hx])]

theorem remove_scan_sublist (ts : List String) : ∀ st : Nat, List.Sublist (remove_scan ts st) ts := by
  induction ts with
  | nil => intro st; exact List.Sublist.slnil
  | cons l ls ih =>
    intro st
    by_cases h0 : st = 0
    · subst h0
      by_cases hm : contains_marker l = true
      · simpa [remove_scan, hm] using (ih 1).cons l
      · simp only [remove_scan, if_pos rfl]
        rw [if_neg hm]
        exact (ih 0).cons₂ l
    · by_cases h1 : st = 1
      · subst h1
        by_cases hb : is_blank l = true
        · simpa [remove_scan, hb] using (ih 2).cons l
        · simp only [Bool.not_eq_true] at hb
          simpa [remove_scan, hb] using (ih 1).cons l
      · simpa [remove_scan, h0, h1] using (ih st).cons₂ l

/-! ### Behaviour of the detection scan -/

theorem notice_scan_none (L : List String) :
    ∀ (fuel ln : Nat), (∀ i, ln ≤ i → i < ln + fuel → contains_marker (L.getD i "") = false) →
      notice_scan L ln fuel = -1 := by
  intro fuel
  induction fuel with
  | zero => intro ln _; rfl
  | succ fuel ih =>
    intro ln h
    have h0 : ¬ contains_marker (L.getD ln "") = true := by
      simp only [h ln le_rfl (by omega)]
      exact Bool.false_ne_true
    simp only [notice_scan]
    rw [if_neg h0]
    exact ih (ln + 1) fun i h1 h2 => h i (by omega) (by omega)

theorem notice_scan_found (L : List String) :
    ∀ (d fuel ln : Nat), d < fuel →
      (∀ i, i < d → contains_marker (L.getD (ln + i) "") = false) →
      contains_marker (L.getD (ln + d) "") = true →
      notice_scan L ln fuel = ((ln + d : Nat) : Int) := by
  intro d
  induction d with
  | zero =>
    intro fuel ln hd _ hm
    cases fuel with
    | zero => omega
    | succ fuel =>
      rw [Nat.add_zero] at hm
      simp only [notice_scan]
      rw [if_pos hm]
      simp
  | succ d ih =>
    intro fuel ln hd hpre hm
    cases fuel with
    | zero => omega
    | succ fuel =>
      have h0 : ¬ contains_marker (L.getD ln "") = true := by
        have := hpre 0 (by omega)
        simpa using this
      simp only [notice_scan]
      rw [if_neg h0]
      have heq : ln + 1 + d = ln + (d + 1) := by omega
      have := ih fuel (ln + 1) (by omega)
        (fun i hi => by
          have := hpre (i + 1) (by omega)
          have h2 : ln + 1 + i = ln + (i + 1) := by omega
          rwa [h2])
        (by rwa [heq])
      rw [this, heq]

theorem notice_scan_inv_none (L : List String) :
    ∀ (fuel ln : Nat), notice_scan L ln fuel = -1 →
      ∀ i, ln ≤ i → i < ln + fuel → contains_marker (L.getD i "") = false := by
  intro fuel
  induction fuel with
  | zero => intro ln _ i h1 h2; omega
  | succ fuel ih =>
    intro ln h i h1 h2
    by_cases hm : contains_marker (L.getD ln "") = true
    · exfalso
      simp only [notice_scan] at h
      rw [if_pos hm] at h
      omega
    · simp only [notice_scan] at h
      rw [if_neg hm] at h
      by_cases hi : i = ln
      · subst hi
        simpa using hm
      · exact ih (ln + 1) h i (by omega) (by omega)

theorem notice_scan_inv_found (L : List String) :
    ∀ (fuel ln : Nat) (r : Int), notice_scan L ln fuel = r → r ≠ -1 →
      ∃ d, d < fuel ∧ r = ((ln + d : Nat) : Int) ∧
        contains_marker (L.getD (ln + d) "") = true ∧
        ∀ i, i < d → contains_marker (L.getD (ln + i) "") = false := by
  intro fuel
  induction fuel with
  | zero => intro ln r h hne; exact absurd h.symm hne
  | succ fuel ih =>
    intro ln r h hne
    by_cases hm : contains_marker (L.getD ln "") = true
    · simp only [notice_scan] at h
      rw [if_pos hm] at h
      refine ⟨0, by omega, by omega, by simpa using hm, ?_⟩
      intro i hi
      exact absurd hi (by omega)
    · simp only [notice_scan] at h
      rw [if_neg hm] at h
      obtain ⟨d, hd, hr, hmark, hpre⟩ := ih (ln + 1) r h hne
      refine ⟨d + 1, by omega, ?_, ?_, ?_⟩
      · rw [hr]; congr 1; omega
      · have : ln + 1 + d = ln + (d + 1) := by omega
        rwa [this] at hmark
      · intro i hi
        cases i with
        | zero => simpa using hm
        | succ j =>
          have := hpre j (by omega)
          have heq : ln + 1 + j = ln + (j + 1) := by omega
          rwa [heq] at this

/-! ### Position of the first marker line -/

theorem findIdx_first_block (p : String → Bool) (y : String) (t : List String)
    (hy : p y = true) :
    ∀ A : List String, (∀ x ∈ A, p x = false) → (A ++ y :: t).findIdx p = A.length := by
  intro A
  induction A with
  | nil => intro _; simp [List.findIdx_cons, hy]
  | cons a A ih =>
    intro hA
    have ha : p a = false := hA a (by simp)
    simp [List.findIdx_cons, ha, ih fun x hx => hA x (by simp [hx])]

/-! ### Composite lemmas about insertion, detection and removal -/

theorem no_marker_getD (L : List String) (h : ∀ l ∈ L, contains_marker l = false) (i : Nat) :
    contains_marker (L.getD i "") = false := by
  by_cases hi : i < L.length
  · have heq : L.getD i "" = L[i] := by
      simp [List.getD_eq_getElem?_getD, List.getElem?_eq_getElem hi]
    rw [heq]
    exact h _ (List.getElem_mem hi)
  · have hle : L.length ≤ i := by omega
    have heq : L.getD i "" = "" := by
      simp [List.getD_eq_getElem?_getD, List.getElem?_eq_none hle]
    rw [heq]
    exact marker_not_in_empty

theorem getD_append_lt (A B : List String) (i : Nat) (h : i < A.length) :
    (A ++ B).getD i "" = A.getD i "" := by
  simp [List.getD_eq_getElem?_getD, List.getElem?_append_left h]

theorem getD_append_len (A B : List String) : (A ++ B).getD A.length "" = B.getD 0 "" := by
  simp [List.getD_eq_getElem?_getD, List.getElem?_append_right (Nat.le_refl A.length)]

/-- The clamped insertion index of `insert_notice` never exceeds the
number of lines. -/
theorem insert_index_le (j : Int) (n : Nat) : (max 0 (min j (n : Int))).toNat ≤ n := by
  omega

theorem insert_index_le_one (j : Int) (hj : j = 0 ∨ j = 1) (n : Nat) :
    (max 0 (min j (n : Int))).toNat ≤ 1 := by
  rcases hj with h | h <;> subst h <;> omega

/-- All lines spliced by `insert_notice` are well formed when the input
lines are and the prefix has no newline. -/
theorem wf_insert_lines (L : List String) (p : String) (j : Int)
    (hwf : ∀ l ∈ L, WFLine l) (hp : '\n' ∉ p.data) :
    ∀ l ∈ insert_notice_lines L p j, WFLine l := by
  intro l hl
  simp only [insert_notice_lines, List.append_assoc, List.mem_append] at hl
  rcases hl with h | h | h
  · exact hwf l (List.take_subset _ _ h)
  · exact wf_notice_block p hp l h
  · exact hwf l (List.drop_subset _ _ h)

/-- Reading back a file just written by `insert_notice`, when every
original line is well formed. -/
theorem readlines_insert (s p : String) (j : Int)
    (hwf : ∀ l ∈ readlines s, WFLine l) (hp : '\n' ∉ p.data) :
    readlines (insert_notice s p j) = insert_notice_lines (readlines s) p j :=
  readlines_writelines _ (linesok_of_wf (wf_insert_lines _ p j hwf hp))

/-- Removal at the splice point undoes a just-inserted notice block:
the marker line is dropped, the copyright line is not blank and is
dropped, the closing blank line is dropped, and the tail is copied. -/
theorem remove_fresh_block (L : List String) (p : String) (k : Nat) (hk : k ≤ L.length) :
    remove_notice_lines (L.take k ++ notice_block p ++ L.drop k) k = L := by
  have hlen : (L.take k).length = k := by simp [List.length_take, Nat.min_eq_left hk]
  have htake : (L.take k ++ notice_block p ++ L.drop k).take k = L.take k := by
    rw [List.append_assoc]
    exact List.take_left' hlen
  have hdrop : (L.take k ++ notice_block p ++ L.drop k).drop k = notice_block p ++ L.drop k := by
    rw [List.append_assoc]
    exact List.drop_left' hlen
  rw [remove_notice_lines, htake, hdrop, notice_block_eq]
  have h0 : remove_scan (mline p :: cline p :: "\n" :: L.drop k) 0 =
      remove_scan (cline p :: "\n" :: L.drop k) 1 := by
    have := remove_scan_state0 [] (mline p) (cline p :: "\n" :: L.drop k)
      (by simp) (marker_in_mline p)
    simpa using this
  have h1 : remove_scan (cline p :: "\n" :: L.drop k) 1 = L.drop k := by
    have := remove_scan_state1 [cline p] "\n" (L.drop k)
      (by
        intro x hx
        have : x = cline p := by simpa using hx
        rw [this]
        exact cline_not_blank p)
      blank_nl
    simpa using this
  simp only [List.cons_append, List.nil_append, h0, h1]
  exact List.take_append_drop k L

/-- The detector finds a just-inserted notice block at the splice
point, provided the lines before it are marker-free and the splice
point is within the scan window. -/
theorem detect_fresh_block (L : List String) (p : String) (k : Nat)
    (hk1 : k ≤ 1) (hk : k ≤ L.length)
    (hno : ∀ x ∈ L.take k, contains_marker x = false) :
    notice_scan (L.take k ++ notice_block p ++ L.drop k) 0 5 = (k : Int) := by
  have hlen : (L.take k).length = k := by simp [List.length_take, Nat.min_eq_left hk]
  have hpre : ∀ i, i < k →
      contains_marker ((L.take k ++ notice_block p ++ L.drop k).getD (0 + i) "") = false := by
    intro i hi
    have hiA : i < (L.take k).length := by omega
    rw [Nat.zero_add, List.append_assoc, getD_append_lt _ _ i hiA]
    have heq : (L.take k).getD i "" = (L.take k)[i] := by
      simp [List.getD_eq_getElem?_getD, List.getElem?_eq_getElem hiA]
    rw [heq]
    exact hno _ (List.getElem_mem hiA)
  have hmk : contains_marker ((L.take k ++ notice_block p ++ L.drop k).getD (0 + k) "") = true := by
    have hsplit := getD_append_len (L.take k) (notice_block p ++ L.drop k)
    rw [hlen] at hsplit
    rw [Nat.zero_add, List.append_assoc, hsplit, notice_block_eq]
    simpa using marker_in_mline p
  have := notice_scan_found _ k 5 0 (by omega) hpre hmk
  simpa using this

/-- The two branch outcomes of the extension dispatch. -/
theorem classify_snd (suffix fl : String) :
    (classify suffix fl).2 = 0 ∨ (classify suffix fl).2 = 1 := by
  unfold classify
  split_ifs <;> simp

theorem classify_fst (suffix fl : String) :
    (classify suffix fl).1 = "// " ∨ (classify suffix fl).1 = "# " ∨
      (classify suffix fl).1 = "% " := by
  unfold classify
  split_ifs <;> simp

/-- Every prefix the dispatch can produce is newline-free and keeps the
marker out of the copyright line. -/
theorem classify_good (suffix fl : String) :
    '\n' ∉ (classify suffix fl).1.data ∧
      contains_marker (cline (classify suffix fl).1) = false := by
  rcases classify_fst suffix fl with h | h | h <;> rw [h] <;>
    exact ⟨by decide, by decide⟩

/-- Marker count of the notice block itself: exactly its first line. -/
theorem countP_block (p : String) (hcl : contains_marker (cline p) = false) :
    (notice_block p).countP contains_marker = 1 := by
  rw [notice_block_eq]
  simp [List.countP_cons, marker_in_mline, marker_not_in_nl, hcl]

/-- When the detector reports no notice in the first five lines, the
removal phase leaves the file untouched. -/
theorem remove_phase_of_none (s : String) (h : has_file_notice s 5 = -1) :
    remove_phase s = s := by
  simp [remove_phase, h]

/-- A marker-free file passes the detector unnoticed. -/
theorem has_file_notice_of_free (s : String)
    (h : ∀ l ∈ readlines s, contains_marker l = false) : has_file_notice s 5 = -1 :=
  notice_scan_none _ 5 0 fun i _ _ => no_marker_getD _ h i

/-! ### Claim theorems -/

/-- C8: `insert_notice` writes back the original lines with the notice
block (each line of `NOTICE` with the prefix prepended and a newline
appended, then exactly one blank separator line) spliced in immediately
before index `min (max insert_line 0) N`, all original lines preserved
in order. -/
theorem insert_splices_block (lines : List String) (pfx : String) (insert_line : Int) :
    insert_notice_lines lines pfx insert_line =
      lines.take (min (max insert_line 0) (lines.length : Int)).toNat ++
        ((splitlines NOTICE).map (fun line => pfx ++ line ++ "\n") ++ ["\n"]) ++
        lines.drop (min (max insert_line 0) (lines.length : Int)).toNat := by
  have h : (max 0 (min insert_line (lines.length : Int))).toNat
      = (min (max insert_line 0) (lines.length : Int)).toNat := by omega
  simp only [insert_notice_lines, notice_block, h]

/-- C7 (amended): `remove_existing_notice` copies the lines before
`start` unchanged, copies the lines from `start` up to (but not
including) the first marker line unchanged, drops that marker line,
keeps dropping until the first blank line has been consumed, and copies
every later line — markers included — unchanged. -/
theorem remove_first_block (lines : List String) (start : Nat)
    (pre mid post : List String) (ml bl : String)
    (hdecomp : lines.drop start = pre ++ ml :: (mid ++ bl :: post))
    (hpre : ∀ x ∈ pre, contains_marker x = false)
    (hml : contains_marker ml = true)
    (hmid : ∀ x ∈ mid, is_blank x = false)
    (hbl : is_blank bl = true) :
    remove_notice_lines lines start = lines.take start ++ (pre ++ post) := by
  rw [remove_notice_lines, hdecomp, remove_scan_state0 pre ml _ hpre hml,
    remove_scan_state1 mid bl post hmid hbl]

/-- Witness for C7 at a concrete file: the non-marker line between
`start` and the marker line is copied, and a second marker line after
the removed block survives. -/
theorem remove_first_block_witness :
    remove_notice_lines
        ["keep\n", "before\n", "x This file is licensed under the GNU GPL v3 x\n", "mid\n",
          "\n", "This file is licensed under the GNU GPL v3 again\n"] 1 =
      ["keep\n", "before\n", "This file is licensed under the GNU GPL v3 again\n"] :=
  (remove_first_block
      ["keep\n", "before\n", "x This file is licensed under the GNU GPL v3 x\n", "mid\n",
        "\n", "This file is licensed under the GNU GPL v3 again\n"] 1
      ["before\n"] ["mid\n"] ["This file is licensed under the GNU GPL v3 again\n"]
      "x This file is licensed under the GNU GPL v3 x\n" "\n"
      (by decide) (by decide) (by decide) (by decide) (by decide)).trans (by decide)

/-- Modelled from the claim text of C7, not from the source: starting at
`start`, lines up to and including the first marker line are dropped,
dropping continues until the first blank line is consumed, and the rest
is copied. -/
def remove_notice_claimed (lines : List String) (start : Nat) : List String :=
  lines.take start ++
    (match (lines.drop start).dropWhile (fun l => !contains_marker l) with
      | [] => []
      | _ :: rest => (rest.dropWhile (fun l => !is_blank l)).tail)

/-- Counterexample to C7 as stated: with `start = 0` and a non-marker
line before the marker line, the code copies that line while the
claimed reading drops it. -/
theorem remove_claimed_counterexample :
    remove_notice_lines
        ["a\n", "x This file is licensed under the GNU GPL v3 x\n", "\n", "z\n"] 0 ≠
      remove_notice_claimed
        ["a\n", "x This file is licensed under the GNU GPL v3 x\n", "\n", "z\n"] 0 := by
  decide

/-- C10: when no blank line follows the first marker line at or after
`start`, the skip state never terminates: everything from the marker
line to the end of the file is dropped. -/
theorem remove_no_blank_drops_tail (lines : List String) (start : Nat)
    (pre rest : List String) (ml : String)
    (hdecomp : lines.drop start = pre ++ ml :: rest)
    (hpre : ∀ x ∈ pre, contains_marker x = false)
    (hml : contains_marker ml = true)
    (hrest : ∀ x ∈ rest, is_blank x = false) :
    remove_notice_lines lines start = lines.take start ++ pre := by
  rw [remove_notice_lines, hdecomp, remove_scan_state0 pre ml rest hpre hml,
    remove_scan_state1_no_blank rest hrest, List.append_nil]

/-- Witness for C10 at a concrete file with no blank line after the
marker: the whole tail is dropped. -/
theorem remove_no_blank_drops_tail_witness :
    remove_notice_lines
        ["keep\n", "x This file is licensed under the GNU GPL v3 x\n", "tail1\n", "tail2\n"] 0 =
      ["keep\n"] :=
  (remove_no_blank_drops_tail
      ["keep\n", "x This file is licensed under the GNU GPL v3 x\n", "tail1\n", "tail2\n"] 0
      ["keep\n"] ["tail1\n", "tail2\n"] "x This file is licensed under the GNU GPL v3 x\n"
      (by decide) (by decide) (by decide) (by decide)).trans (by decide)

/-- C9: a caught failure of the underlying git query makes
`is_git_work_tree` report `False` (not inside a work tree) and
`git_work_tree_clean` report `False` (not clean), with nothing raised. -/
theorem git_queries_fail_closed :
    is_git_work_tree (Except.error ()) = false ∧ git_work_tree_clean (Except.error ()) = false :=
  ⟨rfl, rfl⟩

/-- C6: with a non-empty argument list of paths (so no `--help`) and a
status query reporting pending changes, `main` mutates nothing —
whatever the processing loop would do — and exits nonzero. -/
theorem dirty_tree_guard {α : Type} (wt root : Except Unit String) (out : String)
    (args : List String) (process : α → α) (fs : α)
    (hne : args ≠ []) (hnh : "--help" ∉ args) (hdirty : py_strip out ≠ "") :
    (main_model wt root (Except.ok out) args process fs).2 = fs ∧
      (main_model wt root (Except.ok out) args process fs).1 ≠ 0 := by
  have hclean : git_work_tree_clean (Except.ok out) = false := by
    simp only [git_work_tree_clean]
    exact beq_eq_false_iff_ne.mpr hdirty
  unfold main_model
  rw [if_neg (by
    intro h
    rcases h with h | h
    · exact hnh h
    · exact hne h)]
  by_cases hwt : is_git_work_tree wt = true
  · cases root with
    | error e => simp [hwt]
    | ok r => simp [hwt, hclean]
  · simp only [Bool.not_eq_true] at hwt
    simp [hwt]

/-- Witness for C6: a dirty status output, one path argument, a
processing function that would change the state. -/
theorem dirty_tree_guard_witness :
    (main_model (Except.ok "true") (Except.ok "/repo") (Except.ok " M a.txt") ["src"]
        (fun n => n + 1) (0 : Nat)).2 = 0 ∧
      (main_model (Except.ok "true") (Except.ok "/repo") (Except.ok " M a.txt") ["src"]
        (fun n => n + 1) (0 : Nat)).1 ≠ 0 :=
  dirty_tree_guard (Except.ok "true") (Except.ok "/repo") " M a.txt" ["src"]
    (fun n => n + 1) 0 (by decide) (by decide) (by decide)

/-! ### Helpers for the decide-notice claims -/

theorem linesok_tail {l : String} {ls : List String} (h : LinesOk (l :: ls)) : LinesOk ls := by
  cases ls with
  | nil => trivial
  | cons l2 ls2 => exact h.2

theorem linesok_head_wf {l : String} {ls : List String} (h : LinesOk (l :: ls))
    (hne : ls ≠ []) : WFLine l := by
  cases ls with
  | nil => exact absurd rfl hne
  | cons l2 ls2 => exact h.1

theorem linesok_take_wf (L : List String) : ∀ k : Nat, LinesOk L → k < L.length →
    ∀ l ∈ L.take k, WFLine l := by
  induction L with
  | nil => intro k _ hk; simp at hk
  | cons x xs ih =>
    intro k hok hk l hl
    cases k with
    | zero => simp at hl
    | succ j =>
      have hxs : xs ≠ [] := by
        intro hnil
        rw [hnil] at hk
        simp at hk
      rcases List.mem_cons.mp (by simpa using hl) with h | h
      · exact h ▸ linesok_head_wf hok hxs
      · exact ih j (linesok_tail hok) (by simp at hk ⊢; omega) l h

theorem linesok_drop (L : List String) : ∀ k : Nat, LinesOk L → LinesOk (L.drop k) := by
  induction L with
  | nil => intro k _; simp; trivial
  | cons x xs ih =>
    intro k hok
    cases k with
    | zero => exact hok
    | succ j => exact ih j (linesok_tail hok)

/-- The first `k` lines, as list elements, are marker-free whenever the
indexed reads up to `k` are. -/
theorem take_marker_free (L : List String) (k : Nat)
    (hwin : ∀ i, i < k → contains_marker (L.getD i "") = false) :
    ∀ x ∈ L.take k, contains_marker x = false := by
  intro x hx
  obtain ⟨i, hi, hgx⟩ := List.getElem_of_mem hx
  have hik : i < k := by
    have := hi
    simp only [List.length_take] at this
    omega
  have hiL : i < L.length := by
    have := hi
    simp only [List.length_take] at this
    omega
  have h1 : (L.take k)[i] = L[i] := List.getElem_take L
  have h2 : L[i] = L.getD i "" := by
    simp [List.getD_eq_getElem?_getD, List.getElem?_eq_getElem hiL]
  rw [← hgx, h1, h2]
  exact hwin i hik

/-- When the file carries no notice in its scan window, `decide_notice`
is exactly classification followed by insertion. -/
theorem decide_notice_no_prior (name s : String)
    (h : has_file_notice s 5 = -1) :
    decide_notice name s =
      writelines (insert_notice_lines (readlines s)
        (classify (str_lower (path_suffix name)) ((readlines s).headD "")).1
        (classify (str_lower (path_suffix name)) ((readlines s).headD "")).2) := by
  have h1 : remove_phase s = s := remove_phase_of_none s h
  simp only [decide_notice, h1]
  rfl

/-- C5: extension dispatch for a file with no prior notice: `x.py` with
a shebang first line gets the block at line index 1 with prefix `"# "`;
`x.cpp` at index 0 with `"// "`; `x.tex` at index 0 with `"% "`; the
unknown extension `x.unknownext` falls back to `"// "` at index 0. -/
theorem extension_dispatch (s : String)
    (hNoM : ∀ l ∈ readlines s, contains_marker l = false) :
    (starts_shebang ((readlines s).headD "") = true →
      decide_notice "x.py" s =
        writelines ((readlines s).take 1 ++ notice_block "# " ++ (readlines s).drop 1)) ∧
    decide_notice "x.cpp" s = writelines (notice_block "// " ++ readlines s) ∧
    decide_notice "x.tex" s = writelines (notice_block "% " ++ readlines s) ∧
    decide_notice "x.unknownext" s = writelines (notice_block "// " ++ readlines s) := by
  have hdet : has_file_notice s 5 = -1 := has_file_notice_of_free s hNoM
  have hzero : ∀ n : Nat, (max 0 (min 0 (n : Int))).toNat = 0 := by intro n; omega
  refine ⟨?_, ?_, ?_, ?_⟩
  · intro hsb
    rw [decide_notice_no_prior "x.py" s hdet]
    have hsfx : str_lower (path_suffix "x.py") = ".py" := by decide
    rw [hsfx]
    have hcls : classify ".py" ((readlines s).headD "") = ("# ", 1) := by
      unfold classify
      rw [if_neg (by decide), if_pos (by decide), if_pos hsb]
    rw [hcls]
    have hL : 1 ≤ (readlines s).length := by
      by_contra hc
      have hnil : readlines s = [] := by
        cases hL0 : readlines s with
        | nil => rfl
        | cons a as => rw [hL0] at hc; simp at hc
      rw [hnil] at hsb
      exact absurd hsb (by decide)
    have hk : (max 0 (min (1 : Int) (((readlines s).length : Nat) : Int))).toNat = 1 := by
      omega
    simp only [insert_notice_lines, hk]
  · rw [decide_notice_no_prior "x.cpp" s hdet]
    have hsfx : str_lower (path_suffix "x.cpp") = ".cpp" := by decide
    rw [hsfx]
    have hcls : classify ".cpp" ((readlines s).headD "") = ("// ", 0) := by
      unfold classify
      rw [if_pos (by decide)]
    rw [hcls]
    simp only [insert_notice_lines, hzero, List.take_zero, List.drop_zero, List.nil_append]
  · rw [decide_notice_no_prior "x.tex" s hdet]
    have hsfx : str_lower (path_suffix "x.tex") = ".tex" := by decide
    rw [hsfx]
    have hcls : classify ".tex" ((readlines s).headD "") = ("% ", 0) := by
      unfold classify
      rw [if_neg (by decide), if_neg (by decide), if_pos (by decide)]
    rw [hcls]
    simp only [insert_notice_lines, hzero, List.take_zero, List.drop_zero, List.nil_append]
  · rw [decide_notice_no_prior "x.unknownext" s hdet]
    have hsfx : str_lower (path_suffix "x.unknownext") = ".unknownext" := by decide
    rw [hsfx]
    have hcls : classify ".unknownext" ((readlines s).headD "") = ("// ", 0) := by
      unfold classify
      rw [if_neg (by decide), if_neg (by decide), if_neg (by decide)]
    rw [hcls]
    simp only [insert_notice_lines, hzero, List.take_zero, List.drop_zero, List.nil_append]

/-- Witness for C5 on a concrete shebang file. -/
theorem extension_dispatch_witness :
    decide_notice "x.py" "#!env python3\nbody\n" =
        writelines ((readlines "#!env python3\nbody\n").take 1 ++ notice_block "# " ++
          (readlines "#!env python3\nbody\n").drop 1) ∧
      decide_notice "x.cpp" "#!env python3\nbody\n" =
        writelines (notice_block "// " ++ readlines "#!env python3\nbody\n") ∧
      decide_notice "x.tex" "#!env python3\nbody\n" =
        writelines (notice_block "% " ++ readlines "#!env python3\nbody\n") ∧
      decide_notice "x.unknownext" "#!env python3\nbody\n" =
        writelines (notice_block "// " ++ readlines "#!env python3\nbody\n") := by
  have h := extension_dispatch "#!env python3\nbody\n" (by decide)
  exact ⟨h.1 (by decide), h.2.1, h.2.2.1, h.2.2.2⟩

/-- C4: when the marker first appears only at line index 5 or later, the
detector with its default window reports the not-found sentinel `-1`,
and `decide_notice` adds one more notice block on top of the existing
marker lines (two or more marker lines afterwards) instead of replacing
the old block. -/
theorem marker_beyond_window (name s : String)
    (hwin : ∀ i, i < 5 → contains_marker ((readlines s).getD i "") = false)
    (hdeep : ∃ i, 5 ≤ i ∧ contains_marker ((readlines s).getD i "") = true) :
    has_file_notice s 5 = -1 ∧
      (readlines (decide_notice name s)).countP contains_marker
        = (readlines s).countP contains_marker + 1 ∧
      2 ≤ (readlines (decide_notice name s)).countP contains_marker := by
  obtain ⟨i, hi5, him⟩ := hdeep
  have hdet : has_file_notice s 5 = -1 :=
    notice_scan_none _ 5 0 fun j h1 h2 => hwin j (by omega)
  have hiL : i < (readlines s).length := by
    by_contra hc
    have hge : (readlines s).length ≤ i := by omega
    have heq : (readlines s).getD i "" = "" := by
      simp [List.getD_eq_getElem?_getD, List.getElem?_eq_none hge]
    rw [heq, marker_not_in_empty] at him
    exact absurd him (by decide)
  have hlen : 6 ≤ (readlines s).length := by omega
  refine ⟨hdet, ?_⟩
  rw [decide_notice_no_prior name s hdet]
  obtain ⟨p0, hp⟩ : ∃ p0,
      (classify (str_lower (path_suffix name)) ((readlines s).headD "")).1 = p0 := ⟨_, rfl⟩
  obtain ⟨j0, hj⟩ : ∃ j0,
      (classify (str_lower (path_suffix name)) ((readlines s).headD "")).2 = j0 := ⟨_, rfl⟩
  have hj01 : j0 = 0 ∨ j0 = 1 := by
    have := classify_snd (str_lower (path_suffix name)) ((readlines s).headD "")
    rwa [hj] at this
  have hgood : '\n' ∉ p0.data ∧ contains_marker (cline p0) = false := by
    have := classify_good (str_lower (path_suffix name)) ((readlines s).headD "")
    rwa [hp] at this
  rw [hp, hj]
  simp only [insert_notice_lines]
  have hk1 : (max 0 (min j0 ((readlines s).length : Int))).toNat ≤ 1 :=
    insert_index_le_one j0 hj01 _
  have hkL : (max 0 (min j0 ((readlines s).length : Int))).toNat < (readlines s).length := by
    omega
  have hok : LinesOk
      ((readlines s).take (max 0 (min j0 ((readlines s).length : Int))).toNat ++
        notice_block p0 ++
        (readlines s).drop (max 0 (min j0 ((readlines s).length : Int))).toNat) := by
    rw [List.append_assoc]
    refine linesok_append (linesok_take_wf _ _ (readlines_ok s) hkL) ?_
    exact linesok_append (wf_notice_block p0 hgood.1) (linesok_drop _ _ (readlines_ok s))
  rw [readlines_writelines _ hok]
  have hA : ((readlines s).take
      (max 0 (min j0 ((readlines s).length : Int))).toNat).countP contains_marker = 0 := by
    refine List.countP_eq_zero.mpr ?_
    intro a ha
    have := take_marker_free (readlines s) _ (fun i hi => hwin i (by omega)) a ha
    simp [this]
  have hblock : (notice_block p0).countP contains_marker = 1 := countP_block p0 hgood.2
  have hsplit : (readlines s).countP contains_marker
      = ((readlines s).drop
          (max 0 (min j0 ((readlines s).length : Int))).toNat).countP contains_marker := by
    conv_lhs => rw [← List.take_append_drop
      (max 0 (min j0 ((readlines s).length : Int))).toNat (readlines s)]
    rw [List.countP_append, hA]
    omega
  have hpos : 0 < (readlines s).countP contains_marker := by
    refine List.countP_pos_iff.mpr ⟨(readlines s)[i], List.getElem_mem hiL, ?_⟩
    have h2 : (readlines s)[i] = (readlines s).getD i "" := by
      simp [List.getD_eq_getElem?_getD, List.getElem?_eq_getElem hiL]
    rw [h2]
    exact him
  simp only [List.countP_append, hA, hblock]
  omega

/-- Witness for C4: a file whose only marker line is at index 5. -/
theorem marker_beyond_window_witness :
    has_file_notice "a\nb\nc\nd\ne\n// This file is licensed under the GNU GPL v3.\nbody\n" 5
        = -1 ∧
      (readlines (decide_notice "x.c"
          "a\nb\nc\nd\ne\n// This file is licensed under the GNU GPL v3.\nbody\n")).countP
          contains_marker
        = (readlines
            "a\nb\nc\nd\ne\n// This file is licensed under the GNU GPL v3.\nbody\n").countP
            contains_marker + 1 ∧
      2 ≤ (readlines (decide_notice "x.c"
          "a\nb\nc\nd\ne\n// This file is licensed under the GNU GPL v3.\nbody\n")).countP
          contains_marker :=
  marker_beyond_window "x.c" "a\nb\nc\nd\ne\n// This file is licensed under the GNU GPL v3.\nbody\n"
    (by decide) ⟨5, by omega, by decide⟩

/-- C2 (amended): for a file that is empty or ends with a newline and a
prefix without newline characters, inserting the notice and then
removing it at the clamped insertion index — where the marker line
lands — restores the original content exactly.  (The no-prior-notice
hypothesis of the claim is kept.) -/
theorem insert_remove_roundtrip (s pfx : String) (insert_line : Int)
    (hend : s.data = [] ∨ s.data.getLast? = some '\n')
    (hp : '\n' ∉ pfx.data)
    (hNoM : ∀ l ∈ readlines s, contains_marker l = false) :
    remove_existing_notice (insert_notice s pfx insert_line)
        (max 0 (min insert_line ((readlines s).length : Int))).toNat = s := by
  have hwf : ∀ l ∈ readlines s, WFLine l := readlines_wf s hend
  have hfree : ∀ l ∈ readlines s, contains_marker l = false := hNoM
  rw [remove_existing_notice, readlines_insert s pfx insert_line hwf hp]
  simp only [insert_notice_lines]
  rw [remove_fresh_block (readlines s) pfx _ (insert_index_le insert_line _)]
  exact writelines_readlines s

/-- Witness for C2 on a concrete newline-terminated file. -/
theorem insert_remove_roundtrip_witness :
    remove_existing_notice (insert_notice "x\n" "# " 1) 1 = "x\n" :=
  insert_remove_roundtrip "x\n" "# " 1 (Or.inr (by decide)) (by decide) (by decide)

/-- Counterexample to C2 as stated: the single-line file `"a"` with no
terminating newline and insertion index 1.  The block is spliced after
the unterminated line, so its marker line merges into line 0 of the
written file; removal restores the original neither at the splice index
1 nor at the merged marker's line index 0. -/
theorem insert_remove_roundtrip_fails :
    remove_existing_notice (insert_notice "a" "# " 1) 1 ≠ "a" ∧
      remove_existing_notice (insert_notice "a" "# " 1) 0 ≠ "a" := by
  constructor
  · decide
  · decide

/-- C1 (amended): for a file that is empty or ends with a newline and
contains the marker on no line, running `decide_notice` twice yields
content byte-identical to running it once, and the result has exactly
one marker line. -/
theorem decide_notice_idempotent (name s : String)
    (hend : s.data = [] ∨ s.data.getLast? = some '\n')
    (hNoM : ∀ l ∈ readlines s, contains_marker l = false) :
    decide_notice name (decide_notice name s) = decide_notice name s ∧
      (readlines (decide_notice name s)).countP contains_marker = 1 := by
  have hwf : ∀ l ∈ readlines s, WFLine l := readlines_wf s hend
  have hdet1 : has_file_notice s 5 = -1 := has_file_notice_of_free s hNoM
  rw [decide_notice_no_prior name s hdet1]
  obtain ⟨p0, hp⟩ : ∃ p0,
      (classify (str_lower (path_suffix name)) ((readlines s).headD "")).1 = p0 := ⟨_, rfl⟩
  obtain ⟨j0, hj⟩ : ∃ j0,
      (classify (str_lower (path_suffix name)) ((readlines s).headD "")).2 = j0 := ⟨_, rfl⟩
  have hj01 : j0 = 0 ∨ j0 = 1 := by
    have := classify_snd (str_lower (path_suffix name)) ((readlines s).headD "")
    rwa [hj] at this
  have hgood : '\n' ∉ p0.data ∧ contains_marker (cline p0) = false := by
    have := classify_good (str_lower (path_suffix name)) ((readlines s).headD "")
    rwa [hp] at this
  rw [hp, hj]
  simp only [insert_notice_lines]
  have hk1 : (max 0 (min j0 ((readlines s).length : Int))).toNat ≤ 1 :=
    insert_index_le_one j0 hj01 _
  have hkL : (max 0 (min j0 ((readlines s).length : Int))).toNat ≤ (readlines s).length :=
    insert_index_le j0 _
  have hsplice : readlines (writelines
      ((readlines s).take (max 0 (min j0 ((readlines s).length : Int))).toNat ++
        notice_block p0 ++
        (readlines s).drop (max 0 (min j0 ((readlines s).length : Int))).toNat))
      = (readlines s).take (max 0 (min j0 ((readlines s).length : Int))).toNat ++
        notice_block p0 ++
        (readlines s).drop (max 0 (min j0 ((readlines s).length : Int))).toNat := by
    refine readlines_writelines _ (linesok_of_wf ?_)
    intro l hl
    simp only [List.append_assoc, List.mem_append] at hl
    rcases hl with h | h | h
    · exact hwf l (List.take_subset _ _ h)
    · exact wf_notice_block p0 hgood.1 l h
    · exact hwf l (List.drop_subset _ _ h)
  have hAfree : ∀ x ∈ (readlines s).take
      (max 0 (min j0 ((readlines s).length : Int))).toNat, contains_marker x = false :=
    fun x hx => hNoM x (List.take_subset _ _ hx)
  have hBfree : ∀ x ∈ (readlines s).drop
      (max 0 (min j0 ((readlines s).length : Int))).toNat, contains_marker x = false :=
    fun x hx => hNoM x (List.drop_subset _ _ hx)
  have hdet2 : has_file_notice (writelines
      ((readlines s).take (max 0 (min j0 ((readlines s).length : Int))).toNat ++
        notice_block p0 ++
        (readlines s).drop (max 0 (min j0 ((readlines s).length : Int))).toNat)) 5
      = ((max 0 (min j0 ((readlines s).length : Int))).toNat : Int) := by
    rw [has_file_notice, hsplice]
    exact detect_fresh_block (readlines s) p0 _ hk1 hkL hAfree
  have hrp : remove_phase (writelines
      ((readlines s).take (max 0 (min j0 ((readlines s).length : Int))).toNat ++
        notice_block p0 ++
        (readlines s).drop (max 0 (min j0 ((readlines s).length : Int))).toNat)) = s := by
    rw [remove_phase, hdet2]
    rw [if_neg (by omega)]
    rw [remove_existing_notice, hsplice]
    have ht : ((max 0 (min j0 ((readlines s).length : Int))).toNat : Int).toNat
        = (max 0 (min j0 ((readlines s).length : Int))).toNat := by omega
    rw [ht, remove_fresh_block (readlines s) p0 _ hkL]
    exact writelines_readlines s
  constructor
  · rw [decide_notice, hrp]
    rw [hp, hj]
    simp only [insert_notice, insert_notice_lines]
  · rw [hsplice]
    have hA : ((readlines s).take
        (max 0 (min j0 ((readlines s).length : Int))).toNat).countP contains_marker = 0 :=
      List.countP_eq_zero.mpr fun a ha => by simp [hAfree a ha]
    have hB : ((readlines s).drop
        (max 0 (min j0 ((readlines s).length : Int))).toNat).countP contains_marker = 0 :=
      List.countP_eq_zero.mpr fun a ha => by simp [hBfree a ha]
    simp only [List.countP_append, hA, hB, countP_block p0 hgood.2]

/-- Witness for C1 on a concrete newline-terminated marker-free file. -/
theorem decide_notice_idempotent_witness :
    decide_notice "x.c" (decide_notice "x.c" "code\n") = decide_notice "x.c" "code\n" ∧
      (readlines (decide_notice "x.c" "code\n")).countP contains_marker = 1 :=
  decide_notice_idempotent "x.c" "code\n" (Or.inr (by decide)) (by decide)

/-- Counterexample to C1 as stated: the script file `x.py` with content
`"#!x"` (no terminating newline, no marker anywhere).  The first run
splices the block after the unterminated shebang line, merging the
marker line into it; the second run then detects the merged line as the
notice, removes the shebang text with it, and produces different bytes. -/
theorem decide_notice_not_idempotent :
    decide_notice "x.py" (decide_notice "x.py" "#!x") ≠ decide_notice "x.py" "#!x" := by
  decide

/-- Core composite: whenever the content left by the removal phase is
made of well-formed, marker-free lines, `decide_notice` produces exactly
one marker line, located at the clamped canonical insertion index. -/
theorem decide_notice_structure (name s : String)
    (hPwf : ∀ l ∈ readlines (remove_phase s), WFLine l)
    (hPfree : ∀ l ∈ readlines (remove_phase s), contains_marker l = false) :
    (readlines (decide_notice name s)).countP contains_marker = 1 ∧
      (readlines (decide_notice name s)).findIdx contains_marker
        = (max 0 (min (classify (str_lower (path_suffix name))
              ((readlines (remove_phase s)).headD "")).2
            ((readlines (remove_phase s)).length : Int))).toNat := by
  obtain ⟨p0, hp⟩ : ∃ p0,
      (classify (str_lower (path_suffix name))
        ((readlines (remove_phase s)).headD "")).1 = p0 := ⟨_, rfl⟩
  obtain ⟨j0, hj⟩ : ∃ j0,
      (classify (str_lower (path_suffix name))
        ((readlines (remove_phase s)).headD "")).2 = j0 := ⟨_, rfl⟩
  have hgood : '\n' ∉ p0.data ∧ contains_marker (cline p0) = false := by
    have := classify_good (str_lower (path_suffix name))
      ((readlines (remove_phase s)).headD "")
    rwa [hp] at this
  have hstep : decide_notice name s = insert_notice (remove_phase s) p0 j0 := by
    simp only [decide_notice]
    rw [hp, hj]
  rw [hstep, hj, readlines_insert (remove_phase s) p0 j0 hPwf hgood.1]
  simp only [insert_notice_lines]
  have hk : (max 0 (min j0 ((readlines (remove_phase s)).length : Int))).toNat
      ≤ (readlines (remove_phase s)).length := insert_index_le j0 _
  have hAfree : ∀ x ∈ (readlines (remove_phase s)).take
      (max 0 (min j0 ((readlines (remove_phase s)).length : Int))).toNat,
      contains_marker x = false :=
    fun x hx => hPfree x (List.take_subset _ _ hx)
  have hBfree : ∀ x ∈ (readlines (remove_phase s)).drop
      (max 0 (min j0 ((readlines (remove_phase s)).length : Int))).toNat,
      contains_marker x = false :=
    fun x hx => hPfree x (List.drop_subset _ _ hx)
  constructor
  · have hA : ((readlines (remove_phase s)).take
        (max 0 (min j0 ((readlines (remove_phase s)).length : Int))).toNat).countP
        contains_marker = 0 :=
      List.countP_eq_zero.mpr fun a ha => by simp [hAfree a ha]
    have hB : ((readlines (remove_phase s)).drop
        (max 0 (min j0 ((readlines (remove_phase s)).length : Int))).toNat).countP
        contains_marker = 0 :=
      List.countP_eq_zero.mpr fun a ha => by simp [hBfree a ha]
    simp only [List.countP_append, hA, hB, countP_block p0 hgood.2]
  · have hlenA : ((readlines (remove_phase s)).take
        (max 0 (min j0 ((readlines (remove_phase s)).length : Int))).toNat).length
        = (max 0 (min j0 ((readlines (remove_phase s)).length : Int))).toNat := by
      simp [List.length_take, Nat.min_eq_left hk]
    have hfi := findIdx_first_block contains_marker (mline p0)
      (cline p0 :: "\n" :: (readlines (remove_phase s)).drop
        (max 0 (min j0 ((readlines (remove_phase s)).length : Int))).toNat)
      (marker_in_mline p0)
      ((readlines (remove_phase s)).take
        (max 0 (min j0 ((readlines (remove_phase s)).length : Int))).toNat)
      hAfree
    simp only [notice_block_eq, List.append_assoc, List.cons_append, List.nil_append]
    exact hfi.trans hlenA

/-- C3 (amended): for a file that is empty or ends with a newline, whose
marker lines number at most one and lie only within the five-line scan
window, `decide_notice` leaves exactly one marker line, at the canonical
clamped insertion index for the file's extension. -/
theorem decide_notice_single_block (name s : String)
    (hend : s.data = [] ∨ s.data.getLast? = some '\n')
    (hone : (readlines s).countP contains_marker ≤ 1)
    (hwin : ∀ i, 5 ≤ i → contains_marker ((readlines s).getD i "") = false) :
    (readlines (decide_notice name s)).countP contains_marker = 1 ∧
      (readlines (decide_notice name s)).findIdx contains_marker
        = (max 0 (min (classify (str_lower (path_suffix name))
              ((readlines (remove_phase s)).headD "")).2
            ((readlines (remove_phase s)).length : Int))).toNat := by
  have hwf : ∀ l ∈ readlines s, WFLine l := readlines_wf s hend
  by_cases hdet : has_file_notice s 5 = -1
  · have hrp : remove_phase s = s := remove_phase_of_none s hdet
    have hfree_all : ∀ l ∈ readlines s, contains_marker l = false := by
      intro l hl
      obtain ⟨i, hi, hgx⟩ := List.getElem_of_mem hl
      have h2 : (readlines s)[i] = (readlines s).getD i "" := by
        simp [List.getD_eq_getElem?_getD, List.getElem?_eq_getElem hi]
      by_cases hi5 : i < 5
      · have := notice_scan_inv_none (readlines s) 5 0 hdet i (by omega) (by omega)
        rw [← hgx, h2]
        exact this
      · rw [← hgx, h2]
        exact hwin i (by omega)
    exact decide_notice_structure name s (by rw [hrp]; exact hwf)
      (by rw [hrp]; exact hfree_all)
  · obtain ⟨d, hd5, hr, hmark, hfreepre⟩ :=
      notice_scan_inv_found (readlines s) 5 0 (has_file_notice s 5) rfl hdet
    have hr' : has_file_notice s 5 = (d : Int) := by rw [hr]; simp
    have hmark' : contains_marker ((readlines s).getD d "") = true := by simpa using hmark
    have hfree' : ∀ i, i < d → contains_marker ((readlines s).getD i "") = false := by
      intro i hi
      simpa using hfreepre i hi
    have hdL : d < (readlines s).length := by
      by_contra hc
      have hge : (readlines s).length ≤ d := by omega
      have heq : (readlines s).getD d "" = "" := by
        simp [List.getD_eq_getElem?_getD, List.getElem?_eq_none hge]
      rw [heq, marker_not_in_empty] at hmark'
      exact absurd hmark' (by decide)
    have hgd : contains_marker ((readlines s)[d]) = true := by
      have h2 : (readlines s)[d] = (readlines s).getD d "" := by
        simp [List.getD_eq_getElem?_getD, List.getElem?_eq_getElem hdL]
      rw [h2]
      exact hmark'
    have hrp : remove_phase s = writelines ((readlines s).take d ++
        remove_scan ((readlines s).drop (d + 1)) 1) := by
      rw [remove_phase, hr']
      rw [if_neg (by omega)]
      have ht : ((d : Nat) : Int).toNat = d := by omega
      rw [ht, remove_existing_notice, remove_notice_lines, List.drop_eq_getElem_cons hdL]
      simp only [remove_scan, if_pos rfl]
      rw [if_pos hgd]
      simp
    have hPwf : ∀ l ∈ (readlines s).take d ++
        remove_scan ((readlines s).drop (d + 1)) 1, WFLine l := by
      intro l hl
      rcases List.mem_append.mp hl with h | h
      · exact hwf l (List.take_subset _ _ h)
      · exact hwf l (List.drop_subset _ _ ((remove_scan_sublist _ 1).subset h))
    have hreadP : readlines (remove_phase s) = (readlines s).take d ++
        remove_scan ((readlines s).drop (d + 1)) 1 := by
      rw [hrp]
      exact readlines_writelines _ (linesok_of_wf hPwf)
    have hdropfree : ∀ x ∈ (readlines s).drop (d + 1), contains_marker x = false := by
      have hmemtake : (readlines s)[d] ∈ (readlines s).take (d + 1) := by
        have hlt : d < ((readlines s).take (d + 1)).length := by
          simp only [List.length_take]
          omega
        have : ((readlines s).take (d + 1))[d] = (readlines s)[d] :=
          List.getElem_take (readlines s)
        rw [← this]
        exact List.getElem_mem hlt
      have h1 : 0 < ((readlines s).take (d + 1)).countP contains_marker :=
        List.countP_pos_iff.mpr ⟨(readlines s)[d], hmemtake, hgd⟩
      have h2 : (readlines s).countP contains_marker
          = ((readlines s).take (d + 1)).countP contains_marker +
            ((readlines s).drop (d + 1)).countP contains_marker := by
        conv_lhs => rw [← List.take_append_drop (d + 1) (readlines s)]
        rw [List.countP_append]
      have h3 : ((readlines s).drop (d + 1)).countP contains_marker = 0 := by omega
      intro x hx
      have := List.countP_eq_zero.mp h3 x hx
      simpa using this
    have hPfree : ∀ l ∈ (readlines s).take d ++
        remove_scan ((readlines s).drop (d + 1)) 1, contains_marker l = false := by
      intro l hl
      rcases List.mem_append.mp hl with h | h
      · exact take_marker_free (readlines s) d hfree' l h
      · exact hdropfree l ((remove_scan_sublist _ 1).subset h)
    exact decide_notice_structure name s (by rw [hreadP]; exact hPwf)
      (by rw [hreadP]; exact hPfree)

/-- Counterexample to C3 as stated: a file whose only notice block
starts at line index 5 — past the scan window — ends up with two marker
lines after `decide_notice`, not exactly one. -/
theorem decide_notice_two_blocks :
    (readlines (decide_notice "y.c"
        "p\nq\nr\ns\nt\n// This file is licensed under the GNU GPL v3.\n// Copyright (C) 2026 Guanyuming He.\n\nbody\n")).countP
        contains_marker = 2 := by
  decide

/-- Witness for C3 on a file carrying a notice block at line index 0:
the old block is removed and exactly one fresh block is placed at the
canonical index. -/
theorem decide_notice_single_block_witness :
    (readlines (decide_notice "z.tex"
        "// This file is licensed under the GNU GPL v3.\n// Copyright (C) 2026 Guanyuming He.\n\nold\n")).countP
        contains_marker = 1 ∧
      (readlines (decide_notice "z.tex"
          "// This file is licensed under the GNU GPL v3.\n// Copyright (C) 2026 Guanyuming He.\n\nold\n")).findIdx
          contains_marker
        = (max 0 (min (classify (str_lower (path_suffix "z.tex"))
              ((readlines (remove_phase
                "// This file is licensed under the GNU GPL v3.\n// Copyright (C) 2026 Guanyuming He.\n\nold\n")).headD
                "")).2
            ((readlines (remove_phase
              "// This file is licensed under the GNU GPL v3.\n// Copyright (C) 2026 Guanyuming He.\n\nold\n")).length
              : Int))).toNat :=
  decide_notice_single_block "z.tex"
    "// This file is licensed under the GNU GPL v3.\n// Copyright (C) 2026 Guanyuming He.\n\nold\n"
    (Or.inr (by decide)) (by decide)
    (by
      intro i hi
      have hlen : (readlines
          "// This file is licensed under the GNU GPL v3.\n// Copyright (C) 2026 Guanyuming He.\n\nold\n").length
          = 4 := by decide
      have hge : (readlines
          "// This file is licensed under the GNU GPL v3.\n// Copyright (C) 2026 Guanyuming He.\n\nold\n").length
          ≤ i := by omega
      have heq : (readlines
          "// This file is licensed under the GNU GPL v3.\n// Copyright (C) 2026 Guanyuming He.\n\nold\n").getD
          i "" = "" := by
        simp [List.getD_eq_getElem?_getD, List.getElem?_eq_none hge]
      rw [heq]
      exact marker_not_in_empty)

end PrependLicenseNotice
